import Mathlib

/-!
Verification of the AI code-review pipeline
(`src/tasks/AICodeReviewTask/ai-code-review.py`).

The Python source is shallowly embedded below.  All string operations are
modelled over `List Char` (`String.data`), mirroring Python string
semantics: `in` is substring containment, `split('\n')` splits on every
newline, `endswith`/`startswith` are suffix/prefix tests, `lstrip('/')`
drops all leading slashes, and `re` patterns are implemented as explicit
scanners with the exact backtracking behaviour of the concrete regexes
used by the source.
-/

/-! ## String primitives (Python semantics over char lists) -/

/-- `startsList s p` : does `s` start with `p`?  (Python `str.startswith`.) -/
def startsList : List Char → List Char → Bool
  | _, [] => true
  | [], _ :: _ => false
  | a :: s, b :: p => a == b && startsList s p

/-- `endsList s p` : does `s` end with `p`?  (Python `str.endswith`.) -/
def endsList (s p : List Char) : Bool :=
  startsList s.reverse p.reverse

/-- `containsList s p` : does `p` occur as a contiguous substring of `s`?
(Python `p in s`.) -/
def containsList : List Char → List Char → Bool
  | [], pat => pat.isEmpty
  | c :: t, pat => startsList (c :: t) pat || containsList t pat

/-- Substring containment at the `String` level (Python `pat in s`). -/
def strContains (s pat : String) : Bool :=
  containsList s.data pat.data

/-- Prefix test at the `String` level (Python `s.startswith(pat)`). -/
def strStarts (s pat : String) : Bool :=
  startsList s.data pat.data

/-- Suffix test at the `String` level (Python `s.endswith(pat)`). -/
def strEnds (s pat : String) : Bool :=
  endsList s.data pat.data

/-- ASCII whitespace recognised by Python's `str.strip` / regex `\s`
(space, tab, newline, carriage return, vertical tab, form feed). -/
def isPySpace (c : Char) : Bool :=
  c == ' ' || c == '\t' || c == '\n' || c == '\r' ||
    c == Char.ofNat 11 || c == Char.ofNat 12

/-- ASCII digit, as matched by regex `\d` on the source's inputs. -/
def isAsciiDigit (c : Char) : Bool :=
  '0' ≤ c && c ≤ '9'

/-- Split a char list at every `'\n'` (Python `content.split('\n')`).
Always returns at least one piece; pieces contain no newline. -/
def splitLinesL : List Char → List (List Char)
  | [] => [[]]
  | c :: t =>
    if c = '\n' then [] :: splitLinesL t
    else
      match splitLinesL t with
      | [] => [[c]]
      | h :: r => (c :: h) :: r

/-- `String`-level line split (Python `s.split('\n')`). -/
def splitLines (s : String) : List String :=
  (splitLinesL s.data).map List.asString

/-- Join char-list lines with `'\n'` (Python `'\n'.join(lines)`). -/
def joinLinesL : List (List Char) → List Char
  | [] => []
  | [x] => x
  | x :: y :: t => x ++ '\n' :: joinLinesL (y :: t)

/-- Python `str.strip()` restricted to ASCII whitespace. -/
def pyStrip (s : String) : String :=
  String.mk (((s.data.dropWhile isPySpace).reverse.dropWhile isPySpace).reverse)

/-- Python `str.lower()` (ASCII case folding; the source's patterns are ASCII). -/
def pyLower (s : String) : String :=
  String.mk (s.data.map Char.toLower)

/-- Python `str.upper()` (ASCII case folding). -/
def pyUpper (s : String) : String :=
  String.mk (s.data.map Char.toUpper)

/-- Python `str.lstrip('/')`: drop every leading `'/'`. -/
def lstripSlash (s : String) : String :=
  String.mk (s.data.dropWhile (· == '/'))

/-- Decimal value of a digit string (Python `int(line_num)` for the `\d+`
capture, which is always a nonempty digit run). -/
def natOfDigits (l : List Char) : Nat :=
  l.foldl (fun acc c => acc * 10 + (c.toNat - '0'.toNat)) 0

/-! ## Change Filter (`should_review_file`, truncation, limits) -/

/-- `REVIEW_EXTENSIONS` from the source. -/
def REVIEW_EXTENSIONS : List String :=
  [".py", ".js", ".ts", ".tsx", ".jsx",
   ".cs", ".java", ".go", ".rs", ".rb",
   ".cpp", ".c", ".h", ".hpp",
   ".swift", ".kt", ".scala",
   ".php", ".vue", ".svelte"]

/-- `SKIP_PATTERNS` from the source. -/
def SKIP_PATTERNS : List String :=
  ["package-lock.json", "yarn.lock", "pnpm-lock.yaml",
   ".min.js", ".min.css", ".bundle.js",
   "dist/", "build/", "node_modules/",
   ".generated.", ".Designer.cs",
   "migrations/", "__pycache__/"]

/-- `should_review_file(path)`: no skip pattern occurs in the path, and the
path ends with a reviewed extension. -/
def should_review_file (path : String) : Bool :=
  !(SKIP_PATTERNS.any (fun pat => strContains path pat)) &&
    REVIEW_EXTENSIONS.any (fun ext => strEnds path ext)

/-- The truncation marker appended by `main` when a file exceeds the
per-file line limit: `"... (truncated, {omitted} lines omitted)"`. -/
def truncMarker (omitted : Nat) : List Char :=
  "... (truncated, ".data ++ (Nat.repr omitted).data ++ " lines omitted)".data

/-- Truncation of oversized content in `main`:
`lines = content.split('\n')`; if `len(lines) > max_lines_per_file` the
content becomes the first `max_lines_per_file` lines joined by `'\n'`,
followed by `"\n... (truncated, {k} lines omitted)"`. -/
def truncateContent (maxLinesPerFile : Nat) (content : String) : String :=
  let lines := splitLinesL content.data
  if lines.length > maxLinesPerFile then
    String.mk (joinLinesL (lines.take maxLinesPerFile) ++
      '\n' :: truncMarker (lines.length - maxLinesPerFile))
  else content

/-- One raw change record from the iteration-changes response
(`change['item']['path']`, `change['changeType']`,
`change['changeTrackingId']`). -/
structure Change where
  path : String
  changeType : String
  changeTrackingId : Nat
deriving DecidableEq, Repr

/-- One entry of `files_to_review` built in `main`. -/
structure FileEntry where
  path : String
  content : String
  change_type : String
  change_tracking_id : Nat
deriving DecidableEq, Repr

/-- One iteration of the collection loop of `main`: skip deletes, apply
`should_review_file`, fetch content (absent or empty content skips the
record), truncate oversized content. `getContent` models
`client.get_file_content(path, source_commit)`; when `source_commit` is
empty the fetch is not attempted. -/
def collectStep (getContent : String → Option String) (sourceCommit : String)
    (maxLinesPerFile : Nat) (acc : List FileEntry) (change : Change) :
    List FileEntry :=
  if change.changeType == "delete" then acc
  else if !(should_review_file change.path) then acc
  else
    match (if sourceCommit ≠ "" then getContent change.path else none) with
    | none => acc
    | some content =>
      if content ≠ "" then
        acc ++ [{ path := change.path,
                  content := truncateContent maxLinesPerFile content,
                  change_type := change.changeType,
                  change_tracking_id := change.changeTrackingId }]
      else acc

/-- The collection loop of `main` over all change records, building
`files_to_review` in input order. -/
def collectFiles (changes : List Change) (getContent : String → Option String)
    (sourceCommit : String) (maxLinesPerFile : Nat) : List FileEntry :=
  changes.foldl (collectStep getContent sourceCommit maxLinesPerFile) []

/-- The file-count limit applied after collection in `main`:
`files_to_review = files_to_review[:config.max_files]` when over the cap. -/
def filteredEntries (changes : List Change) (getContent : String → Option String)
    (sourceCommit : String) (maxFiles maxLinesPerFile : Nat) : List FileEntry :=
  let fs := collectFiles changes getContent sourceCommit maxLinesPerFile
  if fs.length > maxFiles then fs.take maxFiles else fs

/-! ## Context Detector (`detect_languages`, `detect_frameworks`) -/

/-- `pathlib.Path(path).name`: the final component (ignoring trailing
separators). -/
def pathName (p : List Char) : List Char :=
  ((p.reverse.dropWhile (· == '/')).takeWhile (· ≠ '/')).reverse

/-- `pathlib.Path(path).suffix`: the extension of the final component —
the part from the last `'.'`, empty when that dot is the first character
of the name or when there is no dot or nothing follows it. -/
def pathSuffix (path : String) : String :=
  let name := pathName path.data
  let rev := name.reverse
  let base := rev.takeWhile (· ≠ '.')
  match rev.dropWhile (· ≠ '.') with
  | '.' :: rest =>
    if rest.isEmpty || base.isEmpty then "" else String.mk ('.' :: base.reverse)
  | _ => ""

/-- `LANGUAGE_MAP` from the source, after Python dict-literal semantics
resolved the duplicate `'.tsx'` / `'.jsx'` keys (the later definition,
`'frontend'`, wins). -/
def LANGUAGE_MAP : List (String × String) :=
  [(".py", "python"), (".pyw", "python"),
   (".js", "javascript"), (".jsx", "frontend"),
   (".ts", "javascript"), (".tsx", "frontend"),
   (".mjs", "javascript"), (".cjs", "javascript"),
   (".cs", "csharp"),
   (".java", "java"), (".kt", "java"), (".scala", "java"),
   (".go", "go"), (".rs", "rust"),
   (".c", "cpp"), (".cpp", "cpp"), (".cc", "cpp"), (".cxx", "cpp"),
   (".h", "cpp"), (".hpp", "cpp"),
   (".vue", "frontend"), (".svelte", "frontend")]

/-- Dictionary lookup `LANGUAGE_MAP[ext]` guarded by `ext in LANGUAGE_MAP`. -/
def langOf (ext : String) : Option String :=
  (LANGUAGE_MAP.find? (fun p => p.1 == ext)).map (·.2)

/-- `FRAMEWORK_PATTERNS` from the source (iteration order of the dict:
`frontend` first, then `backend`). -/
def FRAMEWORK_PATTERNS : List (String × List String) :=
  [("frontend", ["Component", "React", "Vue", "Angular", "useState",
                 "useEffect", ".vue", ".tsx", ".jsx"]),
   ("backend", ["Controller", "Service", "Repository", "FastAPI", "Flask",
                "Express", "Spring", "app.", "router."])]

/-- The framework groups one file contributes: a group is added when any
of its patterns occurs (lower-cased) in the lower-cased path or
(case-sensitively) in the content; the inner `break` of the source adds
each group at most once per file. -/
def fileFrameworks (f : FileEntry) : List String :=
  FRAMEWORK_PATTERNS.filterMap (fun fp =>
    if fp.2.any (fun pat =>
        strContains (pyLower f.path) (pyLower pat) || strContains f.content pat)
    then some fp.1 else none)

/-- One file's contribution to the language set: add the tag of its
lower-cased extension when the extension is in the table. -/
def langStep (f : FileEntry) (s : Finset String) : Finset String :=
  match langOf (pyLower (pathSuffix f.path)) with
  | some l => insert l s
  | none => s

/-- `detect_languages(files)`: the set of language tags of the files'
lower-cased extensions. -/
def detect_languages (files : List FileEntry) : Finset String :=
  files.foldr langStep ∅

/-- One file's contribution to the framework set. -/
def fwStep (f : FileEntry) (s : Finset String) : Finset String :=
  (fileFrameworks f).foldr insert s

/-- `detect_frameworks(files)`: the set of framework tags matched by any
file. -/
def detect_frameworks (files : List FileEntry) : Finset String :=
  files.foldr fwStep ∅

/-- One concrete iteration sequence of the `detect_languages` set
(first-occurrence order).  Python iterates its `set` in an order that is
not a function of the set's elements; `build_review_prompt` below
therefore takes the iteration sequences as explicit inputs, and the
pipeline is instantiated with this one. -/
def detect_languages_list (files : List FileEntry) : List String :=
  files.foldl (fun acc f =>
    match langOf (pyLower (pathSuffix f.path)) with
    | some l => if acc.contains l then acc else acc ++ [l]
    | none => acc) []

/-- One concrete iteration sequence of the `detect_frameworks` set
(first-occurrence order); see `detect_languages_list`. -/
def detect_frameworks_list (files : List FileEntry) : List String :=
  files.foldl (fun acc f =>
    (fileFrameworks f).foldl (fun acc2 fw =>
      if acc2.contains fw then acc2 else acc2 ++ [fw]) acc) []

/-! ## Prompt Assembler (`load_skill_content`, `load_reference`,
`build_review_prompt`, `get_fallback_prompt`) -/

/-- The policy/reference store: `SKILL.md` (absent when the file does not
exist) and the `references/<name>.md` documents. -/
structure SkillStore where
  skill : Option String
  ref : String → Option String

/-- First split of a char list on the separator `"---"`: the part before
the first occurrence and the part after it. -/
def splitOnceDash : List Char → Option (List Char × List Char)
  | [] => none
  | c :: t =>
    if startsList (c :: t) "---".data then some ([], (c :: t).drop 3)
    else
      match splitOnceDash t with
      | none => none
      | some (a, b) => some (c :: a, b)

/-- `load_skill_content`: read `SKILL.md` (empty string when absent) and
strip a leading YAML frontmatter block — when the content starts with
`"---"` and `content.split('---', 2)` has at least three parts, keep the
third part stripped of surrounding whitespace. -/
def load_skill_content (skill : Option String) : String :=
  match skill with
  | none => ""
  | some content =>
    if strStarts content "---" then
      match splitOnceDash content.data with
      | some (_, r1) =>
        match splitOnceDash r1 with
        | some (_, p2) => pyStrip (String.mk p2)
        | none => content
      | none => content
    else content

/-- `load_reference`: a present reference renders as
`"\n\n## {NAME} Reference\n\n{content}"`, an absent one as `""`. -/
def load_reference (ref : String → Option String) (ref_name : String) : String :=
  match ref ref_name with
  | none => ""
  | some content => "\n\n## " ++ pyUpper ref_name ++ " Reference\n\n" ++ content

/-- `get_fallback_prompt()` from the source, verbatim. -/
def get_fallback_prompt : String :=
  "# Code Review\n\nYou are an expert code reviewer. Review the provided PR diff and identify issues.\n\n## Rules\n- ONLY review changed lines (+ lines in diff)\n- Do NOT flag issues in unchanged code\n- Be specific with file paths and line numbers\n- Provide actionable solutions with code examples\n\n## Priority Order\n1. **Critical**: Security vulnerabilities, data integrity risks, breaking changes\n2. **High**: Logic errors, null handling, error handling issues\n3. **Medium**: Performance, code quality, best practices\n4. **Low**: Style, naming, minor improvements\n\n## Output Format\nProvide your review in this markdown format:\n\n## Code Review Summary\n\n**Overall Assessment**: [APPROVE / REQUEST CHANGES / NEEDS DISCUSSION]\n\n### Critical Issues (Blocking)\n[List critical issues with file:line, problem, impact, solution]\n\n### High Priority\n[List high priority issues]\n\n### Suggestions\n[List suggestions and improvements]\n\n### Positive Notes\n[Acknowledge good code patterns]\n"

/-- One step of the reference-appending loops of `build_review_prompt`:
`ref_content = load_reference(...)`; when truthy, append it to the prompt
and record the name in `loaded_refs`. -/
def appendRef (store : SkillStore) (st : String × List String) (name : String) :
    String × List String :=
  let rc := load_reference store.ref name
  if rc ≠ "" then (st.1 ++ rc, st.2 ++ [name]) else st

/-- `build_review_prompt`: base policy (fallback, with no appended
sections, when it is missing or empty), then the three fixed core
references, then one reference per detected language, then one per
detected framework.  Returns `(body, loadedSections)`; `langs` and `fws`
are the iteration sequences of the two detected sets. -/
def build_review_prompt (store : SkillStore) (langs fws : List String) :
    String × List String :=
  let prompt := load_skill_content store.skill
  if prompt = "" then (get_fallback_prompt, [])
  else
    let st1 := ["security", "architecture", "performance"].foldl (appendRef store) (prompt, [])
    let st2 := langs.foldl (appendRef store) st1
    let st3 := fws.foldl (appendRef store) st2
    st3

/-! ## Review Invoker (`perform_ai_review`) -/

/-- Outcome of one call to the text-generation collaborator
(`client.chat.completions.create`): the returned message content, or the
exception message of any failure. -/
inductive GenResult where
  | ok (text : String)
  | err (msg : String)
deriving DecidableEq, Repr

/-- The summary returned by `perform_ai_review` when no reviewable files
exist, verbatim from the source. -/
def emptyFilesSummary : String :=
  "## Code Review Summary\n\n**Overall Assessment**: APPROVE\n\nNo reviewable files found in this PR.\n\n---\n*Generated by AI Code Review*"

/-- The fallback review returned by `perform_ai_review` when the
collaborator raises, verbatim from the source (`{msg}` interpolates
`str(e)`). -/
def errorFallbackText (msg : String) : String :=
  "## Code Review Summary\n\n**Overall Assessment**: NEEDS DISCUSSION\n\nAI review encountered an error: " ++ msg ++
    "\n\nPlease review this PR manually.\n\n---\n*Generated by AI Code Review*"

/-- `"\n\n".join(blocks)`. -/
def joinBlocks : List String → String
  | [] => ""
  | [x] => x
  | x :: y :: t => x ++ "\n\n" ++ joinBlocks (y :: t)

/-- One labelled diff block of the user message:
`"### File: {path} ({change_type})\n```diff\n{content}\n```"`. -/
def fileBlock (f : FileEntry) : String :=
  "### File: " ++ f.path ++ " (" ++ f.change_type ++ ")\n```diff\n" ++
    f.content ++ "\n```"

/-- `diff_content` of `perform_ai_review`. -/
def renderDiff (files : List FileEntry) : String :=
  joinBlocks (files.map fileBlock)

/-- `user_prompt` of `perform_ai_review`. -/
def userPromptFor (diff : String) : String :=
  "Review the following Pull Request changes.\n\n**IMPORTANT REMINDERS:**\n- Review ONLY the changed lines (+ lines in diff)\n- Do NOT flag issues in unchanged context lines\n- Provide specific file:line references from the diff\n- Include concrete code solutions for each issue\n\n## PR Diff to Review\n\n" ++
    diff ++
    "\n\n---\n\nProvide your code review following the format specified in the skill prompt.\n"

/-- `perform_ai_review(files, config)`: the empty file list short-circuits
to a fixed APPROVE summary; otherwise the collaborator is called once with
the assembled system prompt and the rendered diff, and any failure is
replaced by the manual-review fallback text.  The second component counts
collaborator invocations. -/
def perform_ai_review (store : SkillStore) (files : List FileEntry)
    (generate : String → String → GenResult) : String × Nat :=
  if files.isEmpty then (emptyFilesSummary, 0)
  else
    let system_prompt :=
      (build_review_prompt store (detect_languages_list files)
        (detect_frameworks_list files)).1
    let user_prompt := userPromptFor (renderDiff files)
    match generate system_prompt user_prompt with
    | .ok text => (text, 1)
    | .err msg => (errorFallbackText msg, 1)

/-! ## Finding Extractor (`extract_issues_from_review`)

`re.split(r'###\s+', text)` and
`re.findall(r'\*\*File\*\*:\s*`([^`]+):(\d+)(?:-\d+)?`', section)`
are implemented as explicit scanners.  The fuel argument of each scanner
equals the input length; every step consumes at least one character, so
the fuel never runs out and only makes the recursion structural. -/

/-- Splitter for `re.split(r'###\s+', text)`: scan left to right; at each
match of `"###"` followed by a nonempty whitespace run, close the current
segment and resume after the (greedy) whitespace. -/
def splitSecAux : Nat → List Char → List Char → List String
  | _, acc, [] => [acc.reverse.asString]
  | 0, acc, rest => [(acc.reverse ++ rest).asString]
  | fuel + 1, acc, c :: t =>
    if startsList (c :: t) "###".data &&
        !((((c :: t).drop 3).takeWhile isPySpace).isEmpty) then
      acc.reverse.asString ::
        splitSecAux fuel [] (((c :: t).drop 3).dropWhile isPySpace)
    else splitSecAux fuel (c :: acc) t

/-- `sections = re.split(r'###\s+', review_text)`. -/
def reSplitSections (s : String) : List String :=
  splitSecAux s.data.length [] s.data

/-- Tail of the file-line pattern after the colon: `(\d+)(?:-\d+)?` up to
the closing backtick; returns the value of the first digit group. -/
def digitsTailMatch (s : List Char) : Option Nat :=
  let d1 := s.takeWhile isAsciiDigit
  if d1.isEmpty then none
  else
    match s.dropWhile isAsciiDigit with
    | [] => some (natOfDigits d1)
    | '-' :: rest =>
      if !(rest.takeWhile isAsciiDigit).isEmpty &&
          (rest.dropWhile isAsciiDigit).isEmpty then
        some (natOfDigits d1)
      else none
    | _ => none

/-- Try the split of the backtick-delimited span at position `k`: group 1
is `inner[:k]`, which must be followed by `':'` and a line-number tail. -/
def matchInnerAt (inner : List Char) (k : Nat) : Option (String × Nat) :=
  match inner.drop k with
  | ':' :: rest =>
    match digitsTailMatch rest with
    | some n => some ((inner.take k).asString, n)
    | none => none
  | _ => none

/-- Greedy `([^`]+)`: try the colon split at the largest position first
(positions `k ≥ 1`, so that group 1 is nonempty). -/
def matchInnerDesc (inner : List Char) : Nat → Option (String × Nat)
  | 0 => none
  | k + 1 =>
    match matchInnerAt inner (k + 1) with
    | some r => some r
    | none => matchInnerDesc inner k

/-- Match the span between backticks against `([^`]+):(\d+)(?:-\d+)?`. -/
def matchInner (inner : List Char) : Option (String × Nat) :=
  matchInnerDesc inner (inner.length - 1)

/-- The literal head of the file-line pattern, `\*\*File\*\*:`. -/
def fileTag : List Char := "**File**:".data

/-- Try to match the full file-line pattern at the head of `l`; on success
return the path capture, the line number, and the remainder after the
match (`re.findall` resumes there). -/
def tryFileMatch (l : List Char) : Option (String × Nat × List Char) :=
  if startsList l fileTag then
    match (l.drop fileTag.length).dropWhile isPySpace with
    | '`' :: r3 =>
      let inner := r3.takeWhile (· ≠ '`')
      match r3.dropWhile (· ≠ '`') with
      | '`' :: r4 =>
        match matchInner inner with
        | some (p, n) => some (p, n, r4)
        | none => none
      | _ => none
    | _ => none
  else none

/-- Left-to-right non-overlapping scan of `re.findall`. -/
def scanFileMatches : Nat → List Char → List (String × Nat)
  | 0, _ => []
  | _ + 1, [] => []
  | fuel + 1, c :: t =>
    match tryFileMatch (c :: t) with
    | some (p, n, rem) => (p, n) :: scanFileMatches fuel rem
    | none => scanFileMatches fuel t

/-- `re.findall(file_line_pattern, section)`, as (path, line) pairs. -/
def findFileLineMatches (s : String) : List (String × Nat) :=
  scanFileMatches s.data.length s.data

/-- One extracted issue (the dict appended by
`extract_issues_from_review`; severity is `"critical"` or `"high"`). -/
structure Issue where
  file : String
  line : Nat
  severity : String
deriving DecidableEq, Repr

/-- The issue dict appended for one file-line match: the path is
normalised to a leading `'/'`, the line is the first digit group. -/
def issueOfMatch (severity : String) (m : String × Nat) : Issue :=
  { file := if strStarts m.1 "/" then m.1 else "/" ++ m.1,
    line := m.2, severity := severity }

/-- One iteration of the section loop of `extract_issues_from_review`:
a section containing `'Critical'`, `'High Priority'` or `'High'`
contributes one issue per file-line match, with severity `'critical'`
when the section contains `'Critical'` and `'high'` otherwise. -/
def extractStep (issues : List Issue) (seg : String) : List Issue :=
  if strContains seg "Critical" || strContains seg "High Priority" ||
      strContains seg "High" then
    let severity := if strContains seg "Critical" then "critical" else "high"
    (findFileLineMatches seg).foldl (fun acc m =>
      acc ++ [issueOfMatch severity m]) issues
  else issues

/-- `extract_issues_from_review(review_text)`: run the section loop over
`re.split(r'###\s+', review_text)`. -/
def extract_issues_from_review (review_text : String) : List Issue :=
  (reSplitSections review_text).foldl extractStep []

/-! ## Annotation Mapper (inline-comment loop of `main`) -/

/-- The tracking-id search of the inline loop: starting from the default
`1`, take the first reviewed file whose path equals the issue's file or
ends with the issue's file stripped of leading slashes. -/
def findTrackingId : List FileEntry → String → Nat
  | [], _ => 1
  | f :: rest, issueFile =>
    if f.path == issueFile || strEnds f.path (lstripSlash issueFile) then
      f.change_tracking_id
    else findTrackingId rest issueFile

/-- An inline annotation handed to `post_inline_comment`. -/
structure Annotation where
  filePath : String
  line : Nat
  severity : String
  trackingId : Nat
deriving DecidableEq, Repr

/-- Enrich one issue with its tracking id. -/
def annOf (files : List FileEntry) (i : Issue) : Annotation :=
  { filePath := i.file, line := i.line, severity := i.severity,
    trackingId := findTrackingId files i.file }

/-- The inline-comment loop of `main`: `for issue in issues[:10]`, each
iteration posting one annotation. -/
def buildAnnotations (files : List FileEntry) (issues : List Issue) :
    List Annotation :=
  (issues.take 10).map (annOf files)

/-! ## Main review phase (from `files_to_review` to posted comments) -/

/-- `review_with_footer` of `main`. -/
def summaryWithFooter (review_result : String) (filesCount : Nat)
    (model : String) : String :=
  review_result ++ "\n\n---\n**Files reviewed:** " ++ Nat.repr filesCount ++
    "\n**Model:** " ++ model ++
    "\n*Generated by AI Code Review using code-review skill*"

/-- Observable effects of one run of the review phase of `main`: the
summary comments posted, the number of collaborator invocations, and the
inline annotations posted. -/
structure RunOutcome where
  summaryPosts : List String
  genCalls : Nat
  annotations : List Annotation
deriving DecidableEq, Repr

/-- The review phase of `main`, from the filtered file list onward:
perform the AI review, post the footered summary once, extract issues
from the raw review text, post up to ten inline annotations. -/
def mainReviewPhase (store : SkillStore) (files : List FileEntry)
    (generate : String → String → GenResult) (model : String) : RunOutcome :=
  let r := perform_ai_review store files generate
  let footer := summaryWithFooter r.1 files.length model
  let issues := extract_issues_from_review r.1
  { summaryPosts := [footer], genCalls := r.2,
    annotations := buildAnnotations files issues }

/-! ## Specification-side definitions and concrete examples

The `...Spec`/`ByHeading`/`TwoPass` definitions below follow the wording
of claims under test (not the source); they exist only to be compared
with the source-derived definitions above. -/

/-- The per-segment contribution of `extract_issues_from_review`, written
as a map: an in-scope segment (whole text containing `'Critical'`,
`'High Priority'` or `'High'`) contributes one issue per file-line match,
severity `'critical'` exactly when the whole segment contains
`'Critical'`; any other segment contributes nothing. -/
def issuesOfSeg (seg : String) : List Issue :=
  if strContains seg "Critical" || strContains seg "High Priority" ||
      strContains seg "High" then
    (findFileLineMatches seg).map
      (issueOfMatch (if strContains seg "Critical" then "critical" else "high"))
  else []

/-- Heading line of a segment: its text up to the first newline.  Used to
state the claim that extraction scope is decided by the heading alone. -/
def headingOf (s : String) : String :=
  String.mk (s.data.takeWhile (· ≠ '\n'))

/-- The heading-based extractor described by the claim under test: scope
and severity are decided by the heading line of each segment rather than
by the whole segment text. -/
def issuesOfSegByHeading (seg : String) : List Issue :=
  if strContains (headingOf seg) "Critical" ||
      strContains (headingOf seg) "High Priority" ||
      strContains (headingOf seg) "High" then
    (findFileLineMatches seg).map
      (issueOfMatch
        (if strContains (headingOf seg) "Critical" then "critical" else "high"))
  else []

/-- Whole-document heading-based extractor described by the claim under
test. -/
def extractIssuesByHeading (t : String) : List Issue :=
  (reSplitSections t).flatMap issuesOfSegByHeading

/-- The two-pass matcher described by the claim under test for the
Annotation Mapper: an exact path match anywhere in the list takes
priority over any suffix match. -/
def findTrackingIdTwoPass (files : List FileEntry) (file : String) : Nat :=
  match files.find? (fun f => f.path == file) with
  | some f => f.change_tracking_id
  | none =>
    match files.find? (fun f => strEnds f.path (lstripSlash file)) with
    | some f => f.change_tracking_id
    | none => 1

/-- Concrete store: base policy present, reference sections for the
`python` and `javascript` tags. -/
def exStore : SkillStore :=
  ⟨some "# Base policy\n",
   fun n => if n == "python" then some "Python rules\n"
            else if n == "javascript" then some "JS rules\n" else none⟩

/-- Concrete store with no documents at all. -/
def exStoreEmpty : SkillStore := ⟨none, fun _ => none⟩

/-- Concrete review text: the segment heading (`Suggestions`) contains
none of the scope markers while the segment body contains `High`. -/
def exSuggestionsText : String :=
  "### Suggestions\nSome High risk note\n**File**: `a.py:1`\n"

/-- Concrete change records. -/
def exChanges2 : List Change := [⟨"a.py", "edit", 1⟩, ⟨"b.js", "edit", 2⟩]

/-- Concrete reviewed-file lists. -/
def exFiles3 : List FileEntry :=
  [⟨"x/a.py", "", "edit", 7⟩, ⟨"/a.py", "", "edit", 9⟩]

def exFiles4 : List FileEntry := [⟨"a.py", "x", "edit", 7⟩]

def exIssues4 : List Issue := [⟨"/a.py", 3, "high"⟩]

def exAnn4 : Annotation := ⟨"/a.py", 3, "high", 7⟩

def exFiles5 : List FileEntry := [⟨"a.py", "print(1)\n", "edit", 1⟩]

def exPermA : List FileEntry :=
  [⟨"a.py", "", "edit", 1⟩, ⟨"b.ts", "useState", "edit", 2⟩]

def exPermB : List FileEntry :=
  [⟨"b.ts", "useState", "edit", 2⟩, ⟨"a.py", "", "edit", 1⟩]

/-! ## Helper lemmas: substring containment -/

theorem startsList_nil (s : List Char) : startsList s [] = true := by
  cases s <;> rfl

theorem startsList_self_append (p r : List Char) : startsList (p ++ r) p = true := by
  induction p with
  | nil => exact startsList_nil r
  | cons c p ih => simp [startsList, ih]

theorem startsList_append_of {s p : List Char} (b : List Char)
    (h : startsList s p = true) : startsList (s ++ b) p = true := by
  induction p generalizing s with
  | nil => exact startsList_nil _
  | cons x p ih =>
    cases s with
    | nil => simp [startsList] at h
    | cons c s =>
      simp only [startsList, Bool.and_eq_true, beq_iff_eq] at h
      simp [startsList, h.1, ih h.2]

theorem containsList_nil_pat (l : List Char) : containsList l [] = true := by
  cases l <;> simp [containsList, startsList]

theorem containsList_of_startsList {s p : List Char}
    (h : startsList s p = true) : containsList s p = true := by
  cases s with
  | nil =>
    cases p with
    | nil => rfl
    | cons x p => simp [startsList] at h
  | cons c t => simp [containsList, h]

theorem containsList_append_right {b p : List Char} (a : List Char)
    (h : containsList b p = true) : containsList (a ++ b) p = true := by
  induction a with
  | nil => simpa using h
  | cons c a ih => simp [containsList, ih]

theorem containsList_append_left {a p : List Char} (b : List Char)
    (h : containsList a p = true) : containsList (a ++ b) p = true := by
  induction a with
  | nil =>
    simp only [containsList, List.isEmpty_iff] at h
    subst h
    simp [containsList_nil_pat]
  | cons c a ih =>
    simp only [containsList, Bool.or_eq_true] at h
    rcases h with h | h
    · have hs := startsList_append_of b h
      simp only [List.cons_append] at hs
      simp [containsList, hs]
    · simp [containsList, ih h]

theorem containsList_self (p : List Char) : containsList p p = true := by
  have := containsList_of_startsList (startsList_self_append p [])
  simpa using this

theorem strContains_append_right (a b pat : String)
    (h : strContains b pat = true) : strContains (a ++ b) pat = true := by
  simp only [strContains, String.data_append]
  exact containsList_append_right a.data h

theorem strContains_append_left (a b pat : String)
    (h : strContains a pat = true) : strContains (a ++ b) pat = true := by
  simp only [strContains, String.data_append]
  exact containsList_append_left b.data h

theorem strContains_self (s : String) : strContains s s = true :=
  containsList_self s.data

/-! ## Helper lemmas: line splitting -/

theorem splitLinesL_ne_nil : ∀ l : List Char, splitLinesL l ≠ []
  | [] => by simp [splitLinesL]
  | c :: t => by
    by_cases hc : c = '\n'
    · simp [splitLinesL, hc]
    · rcases hsp : splitLinesL t with _ | ⟨h, r⟩
      · exact absurd hsp (splitLinesL_ne_nil t)
      · simp [splitLinesL, hc, hsp]

theorem mem_splitLinesL_no_newline :
    ∀ (l : List Char) (p : List Char), p ∈ splitLinesL l → '\n' ∉ p := by
  intro l
  induction l with
  | nil =>
    intro p hp
    simp [splitLinesL] at hp
    simp [hp]
  | cons c t ih =>
    intro p hp
    by_cases hc : c = '\n'
    · subst hc
      rw [show splitLinesL ('\n' :: t) = [] :: splitLinesL t from by
        simp [splitLinesL]] at hp
      rcases List.mem_cons.mp hp with hp1 | hp1
      · simp [hp1]
      · exact ih p hp1
    · rcases hsp : splitLinesL t with _ | ⟨h, r⟩
      · exact absurd hsp (splitLinesL_ne_nil t)
      · rw [show splitLinesL (c :: t) = (c :: h) :: r from by
          simp [splitLinesL, hc, hsp]] at hp
        rcases List.mem_cons.mp hp with hp1 | hp1
        · subst hp1
          intro hmem
          rcases List.mem_cons.mp hmem with h1 | h1
          · exact hc h1.symm
          · exact ih h (by simp [hsp]) h1
        · exact ih p (by simp [hsp, hp1])

theorem splitLinesL_eq_single {l : List Char} (h : '\n' ∉ l) :
    splitLinesL l = [l] := by
  induction l with
  | nil => rfl
  | cons c t ih =>
    have hc : c ≠ '\n' := fun hx => h (by simp [hx])
    have ht : '\n' ∉ t := fun hx => h (by simp [hx])
    simp [splitLinesL, hc, ih ht]

theorem splitLinesL_append_newline {x : List Char} (r : List Char)
    (h : '\n' ∉ x) : splitLinesL (x ++ '\n' :: r) = x :: splitLinesL r := by
  induction x with
  | nil => simp [splitLinesL]
  | cons c t ih =>
    have hc : c ≠ '\n' := fun hx => h (by simp [hx])
    have ht : '\n' ∉ t := fun hx => h (by simp [hx])
    simp [splitLinesL, hc, ih ht]

theorem splitLinesL_joinLinesL :
    ∀ (ps : List (List Char)) (r : List Char), ps ≠ [] →
      (∀ p ∈ ps, '\n' ∉ p) →
      splitLinesL (joinLinesL ps ++ '\n' :: r) = ps ++ splitLinesL r
  | [], _, hne, _ => absurd rfl hne
  | [x], r, _, hp => by
    simp only [joinLinesL]
    exact splitLinesL_append_newline r (hp x (by simp))
  | x :: y :: t, r, _, hp => by
    have hx : '\n' ∉ x := hp x (by simp)
    have hrest : ∀ p ∈ y :: t, '\n' ∉ p := fun p hm => hp p (by simp [hm])
    have ih := splitLinesL_joinLinesL (y :: t) r (by simp) hrest
    simp only [joinLinesL, List.append_assoc, List.cons_append]
    rw [splitLinesL_append_newline _ hx, ih]
    rfl

/-! ## Helper lemmas: the truncation marker has a single line -/

theorem digitChar_ne_newline (n : Nat) : Nat.digitChar n ≠ '\n' := by
  rcases Nat.lt_or_ge n 16 with h | h
  · interval_cases n <;> decide
  · unfold Nat.digitChar
    repeat rw [if_neg (by omega)]
    decide

theorem toDigitsCore_ne_newline :
    ∀ (fuel b n : Nat) (acc : List Char), (∀ c ∈ acc, c ≠ '\n') →
      ∀ c ∈ Nat.toDigitsCore b fuel n acc, c ≠ '\n' := by
  intro fuel
  induction fuel with
  | zero =>
    intro b n acc hacc c hc
    simp only [Nat.toDigitsCore] at hc
    exact hacc c hc
  | succ fuel ih =>
    intro b n acc hacc c hc
    have heq : Nat.toDigitsCore b (fuel + 1) n acc =
        if n / b = 0 then (n % b).digitChar :: acc
        else Nat.toDigitsCore b fuel (n / b) ((n % b).digitChar :: acc) := by
      simp [Nat.toDigitsCore]
    rw [heq] at hc
    have hext : ∀ d ∈ (n % b).digitChar :: acc, d ≠ '\n' := by
      intro d hd
      rcases List.mem_cons.mp hd with hd | hd
      · subst hd; exact digitChar_ne_newline _
      · exact hacc d hd
    by_cases hz : n / b = 0
    · rw [if_pos hz] at hc
      exact hext c hc
    · rw [if_neg hz] at hc
      exact ih b (n / b) ((n % b).digitChar :: acc) hext c hc

theorem repr_data_no_newline (n : Nat) : '\n' ∉ (Nat.repr n).data := by
  intro h
  exact toDigitsCore_ne_newline (n + 1) 10 n [] (by simp) '\n' h rfl

theorem truncMarker_no_newline (k : Nat) : '\n' ∉ truncMarker k := by
  intro h
  rcases List.mem_append.mp h with h1 | h1
  · rcases List.mem_append.mp h1 with h2 | h2
    · exact absurd h2 (by decide)
    · exact repr_data_no_newline k h2
  · exact absurd h1 (by decide)

/-! ## Helper lemmas: line counts after truncation -/

theorem splitLines_length (s : String) :
    (splitLines s).length = (splitLinesL s.data).length := by
  simp [splitLines]

theorem truncateContent_lines_le {m : Nat} (hm : 1 ≤ m) (c : String) :
    (splitLines (truncateContent m c)).length ≤ m + 1 := by
  rw [splitLines_length]
  unfold truncateContent
  by_cases hlen : (splitLinesL c.data).length > m
  · rw [if_pos hlen]
    have hne : (splitLinesL c.data).take m ≠ [] := by
      rw [← List.length_pos, List.length_take]
      omega
    have hnonl : ∀ p ∈ (splitLinesL c.data).take m, '\n' ∉ p := fun p hp =>
      mem_splitLinesL_no_newline c.data p (List.take_subset m _ hp)
    have hjoin := splitLinesL_joinLinesL ((splitLinesL c.data).take m)
      (truncMarker ((splitLinesL c.data).length - m)) hne hnonl
    show (splitLinesL _).length ≤ m + 1
    rw [hjoin, splitLinesL_eq_single (truncMarker_no_newline _)]
    simp [List.length_take]
  · rw [if_neg hlen]
    omega

/-! ## Helper lemmas: the collection loop only adds truncated content -/

theorem collectStep_mem (g : String → Option String) (sc : String) (m : Nat)
    (acc : List FileEntry) (ch : Change) (e : FileEntry)
    (he : e ∈ collectStep g sc m acc ch) :
    e ∈ acc ∨ ∃ c, e.content = truncateContent m c := by
  unfold collectStep at he
  by_cases hdel : (ch.changeType == "delete") = true
  · rw [if_pos hdel] at he
    exact Or.inl he
  · rw [if_neg hdel] at he
    by_cases hrev : (!(should_review_file ch.path)) = true
    · rw [if_pos hrev] at he
      exact Or.inl he
    · rw [if_neg hrev] at he
      rcases hfetch : (if sc ≠ "" then g ch.path else none) with _ | content
      · rw [hfetch] at he
        exact Or.inl he
      · rw [hfetch] at he
        dsimp only at he
        by_cases hcne : content ≠ ""
        · rw [if_pos hcne] at he
          rcases List.mem_append.mp he with h1 | h1
          · exact Or.inl h1
          · refine Or.inr ⟨content, ?_⟩
            rcases List.mem_singleton.mp h1 with rfl
            rfl
        · rw [if_neg hcne] at he
          exact Or.inl he

theorem foldl_collect_mem (g : String → Option String) (sc : String) (m : Nat) :
    ∀ (changes : List Change) (acc : List FileEntry) (e : FileEntry),
      e ∈ changes.foldl (collectStep g sc m) acc →
      e ∈ acc ∨ ∃ c, e.content = truncateContent m c := by
  intro changes
  induction changes with
  | nil => intro acc e he; exact Or.inl he
  | cons ch chs ih =>
    intro acc e he
    rw [List.foldl_cons] at he
    rcases ih (collectStep g sc m acc ch) e he with h1 | h1
    · exact collectStep_mem g sc m acc ch e h1
    · exact Or.inr h1

/-! ## Helper lemmas: extraction loops as maps -/

theorem foldl_push {α : Type} (g : α → Issue) :
    ∀ (l : List α) (acc : List Issue),
      l.foldl (fun a x => a ++ [g x]) acc = acc ++ l.map g := by
  intro l
  induction l with
  | nil => intro acc; simp
  | cons x t ih => intro acc; simp [ih]

theorem extractStep_eq (issues : List Issue) (seg : String) :
    extractStep issues seg = issues ++ issuesOfSeg seg := by
  unfold extractStep issuesOfSeg
  by_cases hcond : (strContains seg "Critical" || strContains seg "High Priority" ||
      strContains seg "High") = true
  · rw [if_pos hcond, if_pos hcond]
    exact foldl_push _ _ _
  · rw [if_neg hcond, if_neg hcond]
    simp

theorem foldl_extractStep (secs : List String) :
    ∀ acc, secs.foldl extractStep acc = acc ++ secs.flatMap issuesOfSeg := by
  induction secs with
  | nil => intro acc; simp
  | cons s t ih =>
    intro acc
    rw [List.foldl_cons, extractStep_eq, ih]
    simp

/-! ## Helper lemmas: tracking-id search -/

theorem findTrackingId_cases (files : List FileEntry) (file : String) :
    (∃ f ∈ files,
        (f.path = file ∨ strEnds f.path (lstripSlash file) = true) ∧
        findTrackingId files file = f.change_tracking_id) ∨
    ((∀ f ∈ files, f.path ≠ file ∧ strEnds f.path (lstripSlash file) = false) ∧
        findTrackingId files file = 1) := by
  induction files with
  | nil => exact Or.inr ⟨by simp, rfl⟩
  | cons f rest ih =>
    by_cases h : (f.path == file || strEnds f.path (lstripSlash file)) = true
    · refine Or.inl ⟨f, by simp, ?_, ?_⟩
      · rcases Bool.or_eq_true _ _ |>.mp h with h1 | h1
        · exact Or.inl (beq_iff_eq.mp h1)
        · exact Or.inr h1
      · simp [findTrackingId, h]
    · have heq : findTrackingId (f :: rest) file = findTrackingId rest file := by
        simp only [findTrackingId, if_neg h]
      have hparts : f.path ≠ file ∧ strEnds f.path (lstripSlash file) = false := by
        simp only [Bool.or_eq_true, beq_iff_eq, not_or] at h
        exact ⟨h.1, by simpa using h.2⟩
      rcases ih with ⟨g, hg, hmatch, hid⟩ | ⟨hnone, hid⟩
      · exact Or.inl ⟨g, by simp [hg], hmatch, by rw [heq]; exact hid⟩
      · refine Or.inr ⟨?_, by rw [heq]; exact hid⟩
        intro g hg
        rcases List.mem_cons.mp hg with rfl | hg
        · exact hparts
        · exact hnone g hg

/-! ## Helper lemmas: permutation invariance of set-valued folds -/

theorem foldr_perm_eq {α β : Type} (step : α → β → β)
    (hcomm : ∀ a b s, step a (step b s) = step b (step a s)) :
    ∀ {l1 l2 : List α}, l1.Perm l2 → ∀ s, l1.foldr step s = l2.foldr step s := by
  intro l1 l2 h
  induction h with
  | nil => intro s; rfl
  | cons x _ ih => intro s; simp only [List.foldr_cons, ih s]
  | swap x y l => intro s; exact hcomm y x (l.foldr step s)
  | trans _ _ ih1 ih2 => intro s; rw [ih1 s, ih2 s]

theorem langStep_comm (a b : FileEntry) (s : Finset String) :
    langStep a (langStep b s) = langStep b (langStep a s) := by
  unfold langStep
  rcases h1 : langOf (pyLower (pathSuffix a.path)) with _ | la <;>
    rcases h2 : langOf (pyLower (pathSuffix b.path)) with _ | lb <;>
    simp [Finset.Insert.comm]

theorem foldr_insert_insert (l : List String) (x : String) (s : Finset String) :
    l.foldr insert (insert x s) = insert x (l.foldr insert s) := by
  induction l with
  | nil => rfl
  | cons c t ih => simp [ih, Finset.Insert.comm]

theorem fwStep_comm (a b : FileEntry) (s : Finset String) :
    fwStep a (fwStep b s) = fwStep b (fwStep a s) := by
  unfold fwStep
  induction fileFrameworks a with
  | nil => rfl
  | cons c t ih => simp [foldr_insert_insert, ih, Finset.Insert.comm]

/-! ## Helper lemmas: substring containment through rendered summaries -/

theorem strContains_summaryWithFooter (r : String) (n : Nat) (model pat : String)
    (h : strContains r pat = true) :
    strContains (summaryWithFooter r n model) pat = true := by
  unfold summaryWithFooter
  exact strContains_append_left _ _ _ (strContains_append_left _ _ _
    (strContains_append_left _ _ _ (strContains_append_left _ _ _
      (strContains_append_left _ _ _ h))))

theorem errorFallback_contains_notice (msg : String) :
    strContains (errorFallbackText msg) "Please review this PR manually" = true := by
  unfold errorFallbackText
  exact strContains_append_right _ _ _ (by decide)

theorem errorFallback_contains_msg (msg : String) :
    strContains (errorFallbackText msg) msg = true := by
  unfold errorFallbackText
  exact strContains_append_left _ _ _
    (strContains_append_right _ _ _ (strContains_self msg))

/-! ## Claim theorems -/

/-- C1 (amended): for every RawReviewText split on the `###` subsection
markers, a segment produces Findings if and only if its WHOLE text
(heading line and body alike) contains `"Critical"`, `"High Priority"` or
`"High"` (case-sensitive), and the severity of every Finding from such a
segment is `critical` exactly when the whole segment text contains
`"Critical"`, else `high`: the extractor equals the segment-wise
whole-text characterisation `issuesOfSeg`. -/
theorem extract_issues_whole_segment_characterization (t : String) :
    extract_issues_from_review t = (reSplitSections t).flatMap issuesOfSeg := by
  unfold extract_issues_from_review
  rw [foldl_extractStep]
  rfl

/-- C1 counterexample: on a segment whose heading line (`Suggestions`)
contains none of the markers while its body contains `High`, the code
extracts a Finding, whereas the claimed heading-based rule extracts
nothing — the claim as stated is false. -/
theorem extract_issues_heading_scope_counterexample :
    extract_issues_from_review exSuggestionsText = [⟨"/a.py", 1, "high"⟩] ∧
    extractIssuesByHeading exSuggestionsText = [] ∧
    extract_issues_from_review exSuggestionsText ≠
      extractIssuesByHeading exSuggestionsText := by
  refine ⟨by decide, by decide, by decide⟩

/-- C2 (amended): for every input change set and configured limits with
`maxLinesPerFile ≥ 1`, the filtered entry list has length at most
`maxFiles`, and every entry's content has a line count at most
`maxLinesPerFile + 1` — the extra line being the truncation marker that
the code appends after the first `maxLinesPerFile` kept lines. -/
theorem filtered_entries_bounds (changes : List Change)
    (getContent : String → Option String) (sourceCommit : String)
    (maxFiles maxLinesPerFile : Nat) (hm : 1 ≤ maxLinesPerFile) :
    (filteredEntries changes getContent sourceCommit maxFiles
        maxLinesPerFile).length ≤ maxFiles ∧
    ∀ e ∈ filteredEntries changes getContent sourceCommit maxFiles
        maxLinesPerFile,
      (splitLines e.content).length ≤ maxLinesPerFile + 1 := by
  constructor
  · simp only [filteredEntries]
    by_cases hlen :
        (collectFiles changes getContent sourceCommit maxLinesPerFile).length >
          maxFiles
    · rw [if_pos hlen, List.length_take]
      exact min_le_left _ _
    · rw [if_neg hlen]
      omega
  · intro e he
    have hmem : e ∈ collectFiles changes getContent sourceCommit maxLinesPerFile := by
      simp only [filteredEntries] at he
      by_cases hlen :
          (collectFiles changes getContent sourceCommit maxLinesPerFile).length >
            maxFiles
      · rw [if_pos hlen] at he
        exact List.take_subset _ _ he
      · rw [if_neg hlen] at he
        exact he
    rcases foldl_collect_mem getContent sourceCommit maxLinesPerFile changes [] e
        hmem with h1 | ⟨c, hc⟩
    · simp at h1
    · rw [hc]
      exact truncateContent_lines_le hm c

theorem filtered_entries_bounds_witness :
    (1 ≤ 2) ∧
    ((filteredEntries exChanges2 (fun _ => some "x\ny\nz") "c" 1 2).length ≤ 1 ∧
     ∀ e ∈ filteredEntries exChanges2 (fun _ => some "x\ny\nz") "c" 1 2,
       (splitLines e.content).length ≤ 2 + 1) :=
  ⟨by decide,
   filtered_entries_bounds exChanges2 (fun _ => some "x\ny\nz") "c" 1 2 (by decide)⟩

/-- C2 counterexample: with `maxLinesPerFile = 2` and a three-line file,
the filtered entry's content has THREE lines (two kept lines plus the
truncation marker), violating the claimed bound `≤ maxLinesPerFile`. -/
theorem truncation_exceeds_line_limit_counterexample :
    ∃ e ∈ filteredEntries [⟨"a.py", "edit", 1⟩] (fun _ => some "x\ny\nz") "c" 50 2,
      ¬ ((splitLines e.content).length ≤ 2) := by
  decide

/-- C3 (amended): the Annotation Mapper makes a SINGLE pass over the
ChangeEntry sequence and selects the trackingId of the first entry whose
path either exactly equals the Finding's filePath or ends with the
filePath stripped of its leading separators (the two conditions are
tested together per entry, so an earlier suffix match wins over a later
exact match); if no entry matches either way, the trackingId is 1. -/
theorem findTrackingId_single_pass_characterization (files : List FileEntry)
    (file : String) :
    findTrackingId files file =
      (((files.find? (fun f =>
          f.path == file || strEnds f.path (lstripSlash file))).map
        (fun f => f.change_tracking_id)).getD 1) := by
  induction files with
  | nil => rfl
  | cons f rest ih =>
    by_cases h : (f.path == file || strEnds f.path (lstripSlash file)) = true
    · simp [findTrackingId, h, List.find?_cons_of_pos _ h]
    · rw [@List.find?_cons_of_neg _
        (fun f => f.path == file || strEnds f.path (lstripSlash file)) f rest h]
      simp only [findTrackingId, if_neg h]
      exact ih

/-- C3 counterexample: for Finding path `/a.py` against entries
`[x/a.py (id 7), /a.py (id 9)]`, the code returns 7 (first suffix match)
while the claimed exact-match-first rule returns 9. -/
theorem findTrackingId_exact_priority_counterexample :
    findTrackingId exFiles3 "/a.py" = 7 ∧
    findTrackingIdTwoPass exFiles3 "/a.py" = 9 ∧
    findTrackingId exFiles3 "/a.py" ≠ findTrackingIdTwoPass exFiles3 "/a.py" := by
  refine ⟨by decide, by decide, by decide⟩

/-- C4: every emitted Annotation's trackingId either is the
change-tracking id of some filtered ChangeEntry whose path matches the
Annotation's filePath exactly or as a path suffix, or equals the default
1 when no entry matches. -/
theorem annotation_trackingId_originates (files : List FileEntry)
    (issues : List Issue) (a : Annotation)
    (ha : a ∈ buildAnnotations files issues) :
    (∃ f ∈ files,
        (f.path = a.filePath ∨ strEnds f.path (lstripSlash a.filePath) = true) ∧
        a.trackingId = f.change_tracking_id) ∨
    ((∀ f ∈ files,
        f.path ≠ a.filePath ∧ strEnds f.path (lstripSlash a.filePath) = false) ∧
        a.trackingId = 1) := by
  rcases List.mem_map.mp ha with ⟨i, _, rfl⟩
  have hfc := findTrackingId_cases files i.file
  dsimp only [annOf]
  exact hfc

theorem annotation_trackingId_originates_witness :
    (exAnn4 ∈ buildAnnotations exFiles4 exIssues4) ∧
    ((∃ f ∈ exFiles4,
        (f.path = exAnn4.filePath ∨
          strEnds f.path (lstripSlash exAnn4.filePath) = true) ∧
        exAnn4.trackingId = f.change_tracking_id) ∨
     ((∀ f ∈ exFiles4,
        f.path ≠ exAnn4.filePath ∧
          strEnds f.path (lstripSlash exAnn4.filePath) = false) ∧
        exAnn4.trackingId = 1)) :=
  ⟨by decide, annotation_trackingId_originates exFiles4 exIssues4 exAnn4 (by decide)⟩

/-- C5: for every failure of the text-generation collaborator, the Review
Invoker does not propagate the failure: it returns the well-formed
fallback RawReviewText carrying a manual-review notice and the failure
message, and the summary-posting operation is still invoked exactly once
with text containing that notice (and the message). -/
theorem generation_failure_contained (store : SkillStore)
    (files : List FileEntry) (msg model : String)
    (generate : String → String → GenResult) (hne : files ≠ [])
    (hgen : ∀ sp up, generate sp up = GenResult.err msg) :
    perform_ai_review store files generate = (errorFallbackText msg, 1) ∧
    strContains (errorFallbackText msg) "Please review this PR manually" = true ∧
    strContains (errorFallbackText msg) msg = true ∧
    (mainReviewPhase store files generate model).summaryPosts =
      [summaryWithFooter (errorFallbackText msg) files.length model] ∧
    ∀ s ∈ (mainReviewPhase store files generate model).summaryPosts,
      strContains s "Please review this PR manually" = true ∧
      strContains s msg = true := by
  have hperf : perform_ai_review store files generate = (errorFallbackText msg, 1) := by
    unfold perform_ai_review
    rw [if_neg (by simpa [List.isEmpty_iff] using hne)]
    simp only [hgen]
  refine ⟨hperf, errorFallback_contains_notice msg, errorFallback_contains_msg msg,
      ?_, ?_⟩
  · unfold mainReviewPhase
    rw [hperf]
  · intro s hs
    unfold mainReviewPhase at hs
    rw [hperf] at hs
    rcases List.mem_singleton.mp hs with rfl
    exact ⟨strContains_summaryWithFooter _ _ _ _ (errorFallback_contains_notice msg),
           strContains_summaryWithFooter _ _ _ _ (errorFallback_contains_msg msg)⟩

theorem generation_failure_contained_witness :
    (exFiles5 ≠ []) ∧
    (perform_ai_review exStoreEmpty exFiles5 (fun _ _ => GenResult.err "boom") =
        (errorFallbackText "boom", 1) ∧
     strContains (errorFallbackText "boom") "Please review this PR manually" = true ∧
     strContains (errorFallbackText "boom") "boom" = true ∧
     (mainReviewPhase exStoreEmpty exFiles5 (fun _ _ => GenResult.err "boom")
        "gpt-5.2-codex").summaryPosts =
       [summaryWithFooter (errorFallbackText "boom") exFiles5.length "gpt-5.2-codex"] ∧
     ∀ s ∈ (mainReviewPhase exStoreEmpty exFiles5 (fun _ _ => GenResult.err "boom")
        "gpt-5.2-codex").summaryPosts,
       strContains s "Please review this PR manually" = true ∧
       strContains s "boom" = true) :=
  ⟨by decide,
   generation_failure_contained exStoreEmpty exFiles5 "boom" "gpt-5.2-codex"
     (fun _ _ => GenResult.err "boom") (by decide) (fun _ _ => rfl)⟩

/-- C6: for every ReviewContext, if the base policy document is
unavailable then prompt assembly returns exactly the hardcoded fallback
template, appends no core/language/framework sections, and records an
empty loadedSections sequence. -/
theorem fallback_prompt_path (store : SkillStore) (langs fws : List String)
    (h : store.skill = none) :
    build_review_prompt store langs fws = (get_fallback_prompt, []) := by
  unfold build_review_prompt
  rw [h]
  rfl

theorem fallback_prompt_path_witness :
    ((⟨none, fun _ => some "ref text"⟩ : SkillStore).skill = none) ∧
    build_review_prompt ⟨none, fun _ => some "ref text"⟩ ["python"] ["backend"] =
      (get_fallback_prompt, []) :=
  ⟨rfl, fallback_prompt_path ⟨none, fun _ => some "ref text"⟩ ["python"] ["backend"] rfl⟩

/-- C7: for every Finding sequence, at most 10 Annotations are produced —
exactly the Annotations of the first 10 Findings in extraction order (the
output length is `min (number of findings) 10`, so 15 Findings yield
exactly 10 Annotations), and Findings beyond the cap yield nothing. -/
theorem annotations_capped_at_ten (files : List FileEntry) (issues : List Issue) :
    (buildAnnotations files issues).length = min issues.length 10 ∧
    ∀ k : Nat, (buildAnnotations files issues)[k]? =
      if k < 10 then (issues[k]?).map (annOf files) else none := by
  constructor
  · simp only [buildAnnotations, List.length_map, List.length_take]
    omega
  · intro k
    simp only [buildAnnotations, List.getElem?_map, List.getElem?_take]
    by_cases hk : k < 10
    · rw [if_pos hk, if_pos hk]
    · rw [if_neg hk, if_neg hk]
      rfl

/-- C8 counterexample: two language iteration sequences that are equal AS
SETS (a permutation of each other) produce different prompt bodies, so
assembly is not independent of set iteration order. -/
theorem prompt_body_iteration_order_counterexample :
    (["python", "javascript"] : List String).Perm ["javascript", "python"] ∧
    (build_review_prompt exStore ["python", "javascript"] []).1 ≠
      (build_review_prompt exStore ["javascript", "python"] []).1 := by
  refine ⟨by decide, by decide⟩

/-- C8 (amended): prompt assembly is a deterministic function of the
policy-store content and the iteration SEQUENCES of the detected sets —
equal store content and equal iteration sequences give byte-identical
output; by the counterexample, invariance does not extend to reordering
the iteration sequence of the same set. -/
theorem build_review_prompt_deterministic (s1 s2 : SkillStore)
    (langs fws : List String) (hskill : s1.skill = s2.skill)
    (href : ∀ n, s1.ref n = s2.ref n) :
    build_review_prompt s1 langs fws = build_review_prompt s2 langs fws := by
  obtain ⟨sk1, r1⟩ := s1
  obtain ⟨sk2, r2⟩ := s2
  simp only at hskill
  have hr : r1 = r2 := funext href
  subst hskill
  subst hr
  rfl

theorem build_review_prompt_deterministic_witness :
    (exStore.skill = exStore.skill) ∧
    build_review_prompt exStore ["python", "javascript"] ["backend"] =
      build_review_prompt exStore ["python", "javascript"] ["backend"] :=
  ⟨rfl, build_review_prompt_deterministic exStore exStore
    ["python", "javascript"] ["backend"] rfl (fun _ => rfl)⟩

/-- C9: for every file list and every permutation of it, the detected
languages set and the detected frameworks set are identical. -/
theorem context_detection_order_independent (l1 l2 : List FileEntry)
    (h : l1.Perm l2) :
    detect_languages l1 = detect_languages l2 ∧
    detect_frameworks l1 = detect_frameworks l2 :=
  ⟨foldr_perm_eq langStep langStep_comm h ∅,
   foldr_perm_eq fwStep fwStep_comm h ∅⟩

theorem context_detection_order_independent_witness :
    exPermA.Perm exPermB ∧
    (detect_languages exPermA = detect_languages exPermB ∧
     detect_frameworks exPermA = detect_frameworks exPermB) :=
  ⟨by decide, context_detection_order_independent exPermA exPermB (by decide)⟩

/-- C10: for the empty filtered file list, the review stage returns the
fixed summary stating APPROVE and that no reviewable files were found,
without ever invoking the text-generation collaborator (zero collaborator
calls, whatever the collaborator is), and that summary is still posted
exactly once. -/
theorem empty_filelist_outcome (store : SkillStore)
    (generate : String → String → GenResult) (model : String) :
    perform_ai_review store [] generate = (emptyFilesSummary, 0) ∧
    strContains emptyFilesSummary "APPROVE" = true ∧
    strContains emptyFilesSummary "No reviewable files found in this PR" = true ∧
    (mainReviewPhase store [] generate model).genCalls = 0 ∧
    (mainReviewPhase store [] generate model).summaryPosts =
      [summaryWithFooter emptyFilesSummary 0 model] ∧
    ∀ s ∈ (mainReviewPhase store [] generate model).summaryPosts,
      strContains s "APPROVE" = true ∧
      strContains s "No reviewable files found in this PR" = true := by
  have happrove : strContains emptyFilesSummary "APPROVE" = true := by decide
  have hnofiles :
      strContains emptyFilesSummary "No reviewable files found in this PR" = true := by
    decide
  refine ⟨rfl, happrove, hnofiles, rfl, rfl, ?_⟩
  intro s hs
  rcases List.mem_singleton.mp hs with rfl
  exact ⟨strContains_summaryWithFooter _ _ _ _ happrove,
         strContains_summaryWithFooter _ _ _ _ hnofiles⟩
